import Mathlib

/-!
Verification development for the Layered architecture-drift analyzer
(backend/app: analysis/analyzer.py, analysis/inference.py, graph/builder.py,
rules/engine.py, drift/detector.py).

Python dictionaries are embedded as association lists (first binding wins on
lookup, updates replace in place, new keys are appended — matching CPython
insertion-order semantics).  Python strings are Lean `String`s; `x in s`
(substring test) is `substrB`, `dict.get(k, d)` is `dget`/`List.lookup`.
-/

namespace Layered

/-- Python `str.lower()` (ASCII case folding suffices for the inputs used). -/
def strLower (s : String) : String := String.mk (s.toList.map Char.toLower)

/-- Does the first list occur as a leading segment of the second list. -/
def startsWithL : List Char → List Char → Bool
  | [], _ => true
  | _ :: _, [] => false
  | p :: ps, c :: cs => p == c && startsWithL ps cs

/-- Does the pattern occur as a contiguous segment of the second list. -/
def hasSubL (p : List Char) : List Char → Bool
  | [] => p.isEmpty
  | c :: cs => startsWithL p (c :: cs) || hasSubL p cs

/-- Python `p in s` for strings (contiguous substring test). -/
def substrB (p s : String) : Bool := hasSubL p.toList s.toList

/-- Python `d.get(k, dflt)` over an association list with Int values. -/
def dget (d : List (String × Int)) (k : String) (dflt : Int) : Int :=
  match List.lookup k d with
  | some v => v
  | none => dflt

/-! ## rules/engine.py -/

/-- `ArchitectureRule` dataclass from rules/engine.py. -/
structure ArchitectureRule where
  name : String
  description : String
  layer_source : Option String
  layer_target : Option String
  allowed : Bool
deriving DecidableEq, Repr

/-- The architecture configuration handed to `RulesEngine.__init__`
(the output dictionary of `ArchitectureInferenceEngine.infer_architecture`). -/
structure ArchConfig where
  layers : List String
  hierarchy : List (String × Int)
  allowed_dependencies : List (String × List String)
deriving DecidableEq, Repr

/-- `RulesEngine._generate_rules`: one pairwise rule per ordered pair of
distinct layers drawn from `allowed_dependencies` × `layers`, followed by the
`legacy_isolation` rule (with `layer_source = None`) when `legacy` is among the
layers. -/
def generate_rules (cfg : ArchConfig) : List ArchitectureRule :=
  let pairRules :=
    cfg.allowed_dependencies.foldl
      (fun acc p =>
        acc ++ cfg.layers.filterMap (fun tgt =>
          if tgt = p.1 then none
          else if p.2.contains tgt then
            some { name := p.1 ++ "_to_" ++ tgt ++ "_allowed",
                   description := p.1 ++ " layer may depend on " ++ tgt ++ " layer",
                   layer_source := some p.1, layer_target := some tgt,
                   allowed := true }
          else
            some { name := p.1 ++ "_to_" ++ tgt ++ "_forbidden",
                   description := p.1 ++ " layer must not depend on " ++ tgt ++ " layer",
                   layer_source := some p.1, layer_target := some tgt,
                   allowed := false }))
      []
  let legacyRules :=
    if cfg.layers.contains "legacy" then
      [{ name := "legacy_isolation",
         description := "Legacy systems should be isolated behind anti-corruption layer",
         layer_source := none, layer_target := some "legacy",
         allowed := false }]
    else []
  pairRules ++ legacyRules

/-- `RulesEngine.get_applicable_rule`: first rule whose `layer_source` and
`layer_target` equal the given layers.  Python compares with `==`, so a rule
whose `layer_source` is `None` never equals a string source layer. -/
def get_applicable_rule (rules : List ArchitectureRule) (src tgt : String) :
    Option ArchitectureRule :=
  rules.find? (fun r => r.layer_source == some src && r.layer_target == some tgt)

/-- `RulesEngine.is_allowed`. -/
def is_allowed (cfg : ArchConfig) (src tgt : String) : Bool :=
  match get_applicable_rule (generate_rules cfg) src tgt with
  | some r => r.allowed
  | none => ((List.lookup src cfg.allowed_dependencies).getD []).contains tgt

/-- `RulesEngine.get_violation_severity` (Python `abs` is `Int.natAbs` here). -/
def get_violation_severity (hierarchy : List (String × Int)) (src tgt : String) :
    String :=
  let source_level := dget hierarchy src 999
  let target_level := dget hierarchy tgt 999
  if source_level - target_level ≥ 2 then "critical"
  else if tgt = "legacy" then "critical"
  else if target_level < source_level then "high"
  else if (source_level - target_level).natAbs > 1 then "medium"
  else "low"

/-- The severity function as worded by the spec (claim C5): `critical` when
`sourceLevel − targetLevel ≥ 2` or the target layer is `legacy`; otherwise
`high` when `targetLevel < sourceLevel`; otherwise `medium` when the absolute
level gap exceeds 1; otherwise `low`. -/
def severitySpec (hierarchy : List (String × Int)) (src tgt : String) : String :=
  let source_level := dget hierarchy src 999
  let target_level := dget hierarchy tgt 999
  if source_level - target_level ≥ 2 ∨ tgt = "legacy" then "critical"
  else if target_level < source_level then "high"
  else if (source_level - target_level).natAbs > 1 then "medium"
  else "low"

/-- Architecture configuration the inference engine produces for a repository
whose modules fall into the layers `service` (level 2) and `legacy` (level 4):
`legacy` is at the deepest level, so it lies in the allowed-dependency set of
`service`. -/
def cfgServiceLegacy : ArchConfig :=
  { layers := ["service", "legacy"],
    hierarchy := [("service", 2), ("legacy", 4)],
    allowed_dependencies := [("service", ["legacy"]), ("legacy", [])] }

/-- C1: the `legacy_isolation` rule is emitted (with `allowed = False` and
`layer_source = None`), yet `is_allowed("service", "legacy")` returns `True`:
`get_applicable_rule` finds the pairwise rule `service_to_legacy_allowed`
(legacy sits at the deepest level, so it is in the allowed-dependency set of
`service`), and the legacy rule, whose `layer_source` is `None`, can never
equal a queried string source layer.  The code contradicts its own stated
intent (the rule it emits says direct access to legacy is forbidden) and the
spec's legacy-isolation override is therefore not implemented. -/
theorem legacy_isolation_rule_is_dead :
    (generate_rules cfgServiceLegacy).any
        (fun r => r.name == "legacy_isolation" && !r.allowed
            && r.layer_source == none) = true ∧
    get_applicable_rule (generate_rules cfgServiceLegacy) "service" "legacy" =
      some { name := "service_to_legacy_allowed",
             description := "service layer may depend on legacy layer",
             layer_source := some "service", layer_target := some "legacy",
             allowed := true } ∧
    is_allowed cfgServiceLegacy "service" "legacy" = true := by
  refine ⟨by decide, by decide, by decide⟩

/-- Hierarchy of the spec's C4 example: `gateway = 1`, `data = 3`. -/
def hierGD : List (String × Int) := [("gateway", 1), ("data", 3)]

/-- Architecture configuration the inference engine produces from `hierGD`. -/
def cfgGD : ArchConfig :=
  { layers := ["gateway", "data"],
    hierarchy := hierGD,
    allowed_dependencies := [("gateway", ["data"]), ("data", [])] }

/-- C4 counterexample: with levels `gateway = 1`, `data = 3`, the edge
`data → gateway` is indeed disallowed, but its severity is `critical`
(`sourceLevel − targetLevel = 2 ≥ 2`, the layer-bypass rule fires first),
not `high` as the claim states. -/
theorem data_to_gateway_severity_not_high :
    is_allowed cfgGD "data" "gateway" = false ∧
    get_violation_severity hierGD "data" "gateway" ≠ "high" := by
  constructor
  · decide
  · decide

/-- C4 (amended): with levels `gateway = 1`, `data = 3`, the edge
`data → gateway` is disallowed with severity `critical` (two levels are
skipped, so the bypass rule precedes the reverse-dependency rule), and the
edge `gateway → data` is allowed. -/
theorem data_to_gateway_critical_gateway_to_data_allowed :
    is_allowed cfgGD "data" "gateway" = false ∧
    get_violation_severity hierGD "data" "gateway" = "critical" ∧
    is_allowed cfgGD "gateway" "data" = true := by
  refine ⟨by decide, by decide, by decide⟩

/-- C5: for every hierarchy and every pair of layers,
`get_violation_severity` computes exactly the spec's severity function:
`critical` if `sourceLevel − targetLevel ≥ 2` or the target is `legacy`,
else `high` if `targetLevel < sourceLevel`, else `medium` if the absolute
gap exceeds 1, else `low`. -/
theorem get_violation_severity_eq_spec
    (hierarchy : List (String × Int)) (src tgt : String) :
    get_violation_severity hierarchy src tgt = severitySpec hierarchy src tgt := by
  unfold get_violation_severity severitySpec
  dsimp only
  split_ifs <;> first | rfl | tauto

/-! ## analysis/inference.py — layer assignment -/

/-- `ArchitectureInferenceEngine.LAYER_PATTERNS`, in dict insertion order. -/
def LAYER_PATTERNS : List (String × List String) :=
  [("presentation", ["client", "frontend", "web", "mobile", "ui", "view", "presentation"]),
   ("gateway", ["gateway", "api", "controller", "endpoint", "route", "handler"]),
   ("service", ["service", "business", "domain", "core", "logic", "usecase"]),
   ("data", ["data", "repository", "dao", "model", "database", "db", "persistence"]),
   ("legacy", ["legacy", "old", "deprecated", "v1"])]

/-- The inner double loop of `_assign_modules_to_layers`: first layer (in list
order) one of whose patterns occurs in the file path or in the module name. -/
def matchLayer (file_path module_name : String) :
    List (String × List String) → Option String
  | [] => none
  | (layer, pats) :: rest =>
    if pats.any (fun pat => substrB pat file_path || substrB pat module_name)
    then some layer
    else matchLayer file_path module_name rest

/-- Layer assigned to one module by `_assign_modules_to_layers`: paths and
names are lowercased, the first matching layer wins, default `service`. -/
def assignLayer (file_path module_name : String) : String :=
  (matchLayer (strLower file_path) (strLower module_name) LAYER_PATTERNS).getD "service"

/-- `ModuleInfo` dataclass from analysis/analyzer.py. -/
structure ModuleInfo where
  name : String
  file_path : String
  imports : List String
  layer : Option String
  is_test : Bool
deriving DecidableEq, Repr

/-- `_assign_modules_to_layers` over the graph's node list and metadata map:
nodes without metadata are skipped. -/
def assign_modules_to_layers (nodes : List String)
    (metadata : List (String × ModuleInfo)) : List (String × String) :=
  nodes.filterMap (fun n =>
    match List.lookup n metadata with
    | none => none
    | some mi => some (n, assignLayer mi.file_path mi.name))

/-- The spec's fixed layer priority order. -/
def layerOrder : List String :=
  ["presentation", "gateway", "service", "data", "legacy"]

/-- Worded from the spec (claim C6): walk the layer names in the fixed
priority order and return the first whose fragment set has a match. -/
def firstMatchingLayer (file_path module_name : String) : List String → Option String
  | [] => none
  | layer :: rest =>
    if ((List.lookup layer LAYER_PATTERNS).getD []).any
        (fun pat => substrB pat file_path || substrB pat module_name)
    then some layer
    else firstMatchingLayer file_path module_name rest

/-- Worded from the spec (claim C6): the first layer, in the priority order
presentation, gateway, service, data, legacy, with any fragment occurring in
the lowercased file path or module id; default `service`. -/
def assignLayerSpec (file_path module_name : String) : String :=
  (firstMatchingLayer (strLower file_path) (strLower module_name) layerOrder).getD "service"

/-- C6: layer assignment tests the lowercased path and module id against each
layer's fragments in the fixed priority order (presentation, gateway, service,
data, legacy), the first layer with a matching fragment wins, and a node with
no match defaults to `service`; in particular a module at path
`src/gateway/router.py` gets layer `gateway` even when its module id contains
the substring `service`. -/
theorem assign_layer_first_match_priority :
    (∀ file_path module_name,
        assignLayer file_path module_name = assignLayerSpec file_path module_name) ∧
    assignLayer "src/gateway/router.py" "gateway.router_service" = "gateway" := by
  constructor
  · intro fp mn
    unfold assignLayer assignLayerSpec
    simp [matchLayer, firstMatchingLayer, LAYER_PATTERNS, layerOrder, List.lookup]
  · decide

/-! ## analysis/inference.py — hierarchy determination -/

/-- `ArchitectureInferenceEngine.DEFAULT_HIERARCHY`. -/
def DEFAULT_HIERARCHY : List (String × Int) :=
  [("presentation", 0), ("gateway", 1), ("service", 2), ("data", 3), ("legacy", 4)]

/-- First-occurrence deduplication (the set of layers actually used; its
order is irrelevant, the result is only read through lookups). -/
def dedupFirst (l : List String) : List String :=
  l.foldl (fun acc x => if acc.contains x then acc else acc ++ [x]) []

/-- The starting hierarchy of `_determine_hierarchy`: every layer appearing as
a value of `inferred_layers`, at its default base level (2 for names outside
the default table). -/
def initial_hierarchy (inferred : List (String × String)) : List (String × Int) :=
  (dedupFirst (inferred.map Prod.snd)).map
    (fun layer => (layer, dget DEFAULT_HIERARCHY layer 2))

/-- `dependency_votes[(a, b)] += 1` on a defaultdict embedded as an
association list in insertion order. -/
def bumpVote : List ((String × String) × Nat) → (String × String) →
    List ((String × String) × Nat)
  | [], p => [(p, 1)]
  | (q, c) :: rest, p =>
    if q = p then (q, c + 1) :: rest else (q, c) :: bumpVote rest p

/-- Body of the vote-tallying loop of `_determine_hierarchy`: look both
endpoints up in `inferred_layers` and count the pair when both are found and
the layers differ.  (Python also skips an empty string layer via truthiness;
layer names here are never empty.) -/
def tallyStep (inferred : List (String × String))
    (acc : List ((String × String) × Nat)) (e : String × String) :
    List ((String × String) × Nat) :=
  match List.lookup e.1 inferred, List.lookup e.2 inferred with
  | some sl, some tl => if sl ≠ tl then bumpVote acc (sl, tl) else acc
  | _, _ => acc

def tally_votes (inferred : List (String × String))
    (edges : List (String × String)) : List ((String × String) × Nat) :=
  edges.foldl (tallyStep inferred) []

/-- Python dict item assignment `h[k] = v`: replace in place, append if new. -/
def setLevel : List (String × Int) → String → Int → List (String × Int)
  | [], k, v => [(k, v)]
  | (k0, v0) :: rest, k, v =>
    if k0 = k then (k0, v) :: rest else (k0, v0) :: setLevel rest k v

/-- Body of the adjustment loop of `_determine_hierarchy`: for each tallied
pair with count above 2, raise the target layer to one above the source
layer's current level when it is not already above it.  (Both layers are
always keys of the hierarchy — they are values of `inferred_layers` — so the
lookup default is never taken.) -/
def applyStep (h : List (String × Int)) (v : (String × String) × Nat) :
    List (String × Int) :=
  if v.2 > 2 then
    if dget h v.1.1 999 ≥ dget h v.1.2 999 then
      setLevel h v.1.2 (dget h v.1.1 999 + 1)
    else h
  else h

def apply_votes (h0 : List (String × Int))
    (votes : List ((String × String) × Nat)) : List (String × Int) :=
  votes.foldl applyStep h0

/-- `ArchitectureInferenceEngine._determine_hierarchy`. -/
def determine_hierarchy (inferred : List (String × String))
    (edges : List (String × String)) : List (String × Int) :=
  apply_votes (initial_hierarchy inferred) (tally_votes inferred edges)

/-- Python code-point lexicographic comparison on strings, as a Boolean. -/
def ltL : List Char → List Char → Bool
  | [], [] => false
  | [], _ :: _ => true
  | _ :: _, [] => false
  | a :: as, b :: bs => a < b || (a == b && ltL as bs)

/-- Ordering asserted by claim C3: descending count, ties broken
alphabetically by the (source, target) pair. -/
def voteLe (a b : (String × String) × Nat) : Bool :=
  if a.2 = b.2 then
    if a.1.1 = b.1.1 then !ltL b.1.2.toList a.1.2.toList
    else ltL a.1.1.toList b.1.1.toList
  else decide (b.2 < a.2)

/-- Stable insertion into a sorted list. -/
def insSorted (x : (String × String) × Nat) :
    List ((String × String) × Nat) → List ((String × String) × Nat)
  | [] => [x]
  | y :: ys => if voteLe x y then x :: y :: ys else y :: insSorted x ys

/-- Insertion sort by `voteLe` (stable). -/
def sortVotes (votes : List ((String × String) × Nat)) :
    List ((String × String) × Nat) :=
  votes.foldr insSorted []

/-- Worded from claim C3 as stated: process the tallied pairs in descending
count order with alphabetical tie-breaking. -/
def hierarchyClaimSorted (inferred : List (String × String))
    (edges : List (String × String)) : List (String × Int) :=
  apply_votes (initial_hierarchy inferred) (sortVotes (tally_votes inferred edges))

/-- Concrete module→layer mapping refuting the claimed processing order. -/
def exInfC3 : List (String × String) :=
  [("s1", "service"), ("s2", "service"), ("s3", "service"), ("s4", "service"),
   ("g1", "gateway")]

/-- Edges (grouped by source node, as a DiGraph iterates them): three
service→gateway edges first, then four gateway→service edges. -/
def exEdgesC3 : List (String × String) :=
  [("s1", "g1"), ("s2", "g1"), ("s3", "g1"),
   ("g1", "s1"), ("g1", "s2"), ("g1", "s3"), ("g1", "s4")]

/-- C3 counterexample: `_determine_hierarchy` iterates the vote dictionary in
insertion order (first appearance of each layer pair in the edge iteration),
not in descending count order.  Here (service→gateway, count 3) is processed
before (gateway→service, count 4): the code yields service=4, gateway=3, while
the claimed descending-count processing yields service=2, gateway=3. -/
theorem determine_hierarchy_order_counterexample :
    dget (determine_hierarchy exInfC3 exEdgesC3) "service" 999 = 4 ∧
    dget (hierarchyClaimSorted exInfC3 exEdgesC3) "service" 999 = 2 ∧
    determine_hierarchy exInfC3 exEdgesC3 ≠ hierarchyClaimSorted exInfC3 exEdgesC3 := by
  refine ⟨by decide, by decide, by decide⟩

/-- Body of the adjustment loop as worded by claim C3 (amended): force the
target layer's level to be at least one greater than the source layer's
current level, never decreasing a level. -/
def maxStep (h : List (String × Int)) (v : (String × String) × Nat) :
    List (String × Int) :=
  if v.2 > 2 then
    setLevel h v.1.2 (max (dget h v.1.2 999) (dget h v.1.1 999 + 1))
  else h

/-- Worded from claim C3 as amended: same base levels and tally, pairs
processed in the order of their first appearance in the edge iteration, and
each significant pair forces the target layer's level to be at least one
greater than the source layer's current level, never decreasing a level. -/
def hierarchySpecAmended (inferred : List (String × String))
    (edges : List (String × String)) : List (String × Int) :=
  (tally_votes inferred edges).foldl maxStep
    ((dedupFirst (inferred.map Prod.snd)).map
      (fun layer => (layer, dget DEFAULT_HIERARCHY layer 2)))

lemma mem_of_lookup {α : Type} {k : String} {v : α} :
    ∀ {l : List (String × α)}, List.lookup k l = some v → (k, v) ∈ l := by
  intro l
  induction l with
  | nil => intro h; simp [List.lookup] at h
  | cons p rest ih =>
    obtain ⟨pk, pv⟩ := p
    intro h
    by_cases hk : k = pk
    · subst hk
      simp [List.lookup] at h
      simp [h]
    · simp only [List.lookup, beq_eq_false_iff_ne.mpr hk] at h
      exact List.mem_cons_of_mem _ (ih h)

lemma mem_dedupFoldl {x : String} :
    ∀ (l acc : List String), x ∈ acc ∨ x ∈ l →
      x ∈ l.foldl (fun acc y => if acc.contains y then acc else acc ++ [y]) acc := by
  intro l
  induction l with
  | nil => intro acc h; simpa using h
  | cons y t ih =>
    intro acc h
    rw [List.foldl_cons]
    have hstep : ∀ z, z ∈ acc ∨ z = y →
        z ∈ (if acc.contains y then acc else acc ++ [y]) := by
      intro z hz
      by_cases hc : acc.contains y = true
      · rw [if_pos hc]
        rcases hz with hz | rfl
        · exact hz
        · exact List.elem_iff.mp hc
      · rw [if_neg hc]
        rcases hz with hz | rfl
        · exact List.mem_append_left _ hz
        · exact List.mem_append_right _ (List.mem_singleton.mpr rfl)
    rcases h with h | h
    · exact ih _ (Or.inl (hstep x (Or.inl h)))
    · rcases List.mem_cons.mp h with rfl | h
      · exact ih _ (Or.inl (hstep x (Or.inr rfl)))
      · exact ih _ (Or.inr h)

lemma mem_dedupFirst {x : String} {l : List String} (h : x ∈ l) :
    x ∈ dedupFirst l :=
  mem_dedupFoldl l [] (Or.inr h)

lemma keys_setLevel_of_mem {b : String} {v : Int} :
    ∀ {h : List (String × Int)}, b ∈ h.map Prod.fst →
      (setLevel h b v).map Prod.fst = h.map Prod.fst := by
  intro h
  induction h with
  | nil => intro hb; simp at hb
  | cons p rest ih =>
    obtain ⟨pk, pv⟩ := p
    intro hb
    by_cases hk : pk = b
    · simp only [setLevel, if_pos hk]
      simp
    · simp only [setLevel, if_neg hk]
      rw [List.map_cons] at hb
      rcases List.mem_cons.mp hb with rfl | hmem
      · exact absurd rfl hk
      · rw [List.map_cons, List.map_cons, ih hmem]

lemma setLevel_dget_self {b : String} {d : Int} :
    ∀ {h : List (String × Int)}, b ∈ h.map Prod.fst →
      setLevel h b (dget h b d) = h := by
  intro h
  induction h with
  | nil => intro hb; simp at hb
  | cons p rest ih =>
    obtain ⟨pk, pv⟩ := p
    intro hb
    by_cases hk : pk = b
    · subst hk
      have hv : dget ((pk, pv) :: rest) pk d = pv := by
        simp [dget, List.lookup]
      rw [hv]
      simp [setLevel]
    · have hmem : b ∈ rest.map Prod.fst := by
        rw [List.map_cons] at hb
        rcases List.mem_cons.mp hb with rfl | hmem
        · exact absurd rfl hk
        · exact hmem
      have hbeq : (b == pk) = false :=
        beq_eq_false_iff_ne.mpr (fun he => hk he.symm)
      have hv : dget ((pk, pv) :: rest) b d = dget rest b d := by
        simp [dget, List.lookup, hbeq]
      rw [hv]
      simp only [setLevel, if_neg hk]
      rw [ih hmem]

lemma bumpVote_pairs {P : String × String → Prop} {q : String × String} :
    ∀ {acc : List ((String × String) × Nat)},
      (∀ p ∈ acc, P p.1) → P q → ∀ p ∈ bumpVote acc q, P p.1 := by
  intro acc
  induction acc with
  | nil =>
    intro _ hq p hp
    simp [bumpVote] at hp
    simp [hp, hq]
  | cons a rest ih =>
    intro hacc hq p hp
    obtain ⟨aq, ac⟩ := a
    by_cases he : aq = q
    · simp only [bumpVote, if_pos he] at hp
      rcases List.mem_cons.mp hp with rfl | hp
      · simpa [he] using hq
      · exact hacc _ (List.mem_cons_of_mem _ hp)
    · simp only [bumpVote, if_neg he] at hp
      rcases List.mem_cons.mp hp with rfl | hp
      · exact hacc _ (List.mem_cons_self _ _)
      · exact ih (fun r hr => hacc r (List.mem_cons_of_mem _ hr)) hq p hp

lemma tallyStep_pairs {inferred : List (String × String)}
    {acc : List ((String × String) × Nat)} {e : String × String}
    (hacc : ∀ p ∈ acc,
      p.1.1 ∈ inferred.map Prod.snd ∧ p.1.2 ∈ inferred.map Prod.snd) :
    ∀ p ∈ tallyStep inferred acc e,
      p.1.1 ∈ inferred.map Prod.snd ∧ p.1.2 ∈ inferred.map Prod.snd := by
  intro p hp
  unfold tallyStep at hp
  split at hp
  next sl tl hs ht =>
    by_cases hne : sl ≠ tl
    · rw [if_pos hne] at hp
      refine bumpVote_pairs
        (P := fun pr => pr.1 ∈ inferred.map Prod.snd ∧ pr.2 ∈ inferred.map Prod.snd)
        hacc ⟨?_, ?_⟩ p hp
      · exact List.mem_map.mpr ⟨_, mem_of_lookup hs, rfl⟩
      · exact List.mem_map.mpr ⟨_, mem_of_lookup ht, rfl⟩
    · rw [if_neg hne] at hp
      exact hacc p hp
  next => exact hacc p hp

lemma tally_votes_pairs {inferred : List (String × String)} :
    ∀ (edges : List (String × String)) (acc : List ((String × String) × Nat)),
      (∀ p ∈ acc,
        p.1.1 ∈ inferred.map Prod.snd ∧ p.1.2 ∈ inferred.map Prod.snd) →
      ∀ p ∈ edges.foldl (tallyStep inferred) acc,
        p.1.1 ∈ inferred.map Prod.snd ∧ p.1.2 ∈ inferred.map Prod.snd := by
  intro edges
  induction edges with
  | nil => intro acc hacc p hp; exact hacc p hp
  | cons e t ih =>
    intro acc hacc p hp
    rw [List.foldl_cons] at hp
    exact ih _ (tallyStep_pairs hacc) p hp

lemma applyStep_eq_maxStep {h : List (String × Int)}
    {v : (String × String) × Nat} (hv : v.1.2 ∈ h.map Prod.fst) :
    applyStep h v = maxStep h v := by
  unfold applyStep maxStep
  by_cases hc : v.2 > 2
  · rw [if_pos hc, if_pos hc]
    by_cases hge : dget h v.1.1 999 ≥ dget h v.1.2 999
    · have hmax : max (dget h v.1.2 999) (dget h v.1.1 999 + 1)
          = dget h v.1.1 999 + 1 := by omega
      rw [if_pos hge, hmax]
    · have hmax : max (dget h v.1.2 999) (dget h v.1.1 999 + 1)
          = dget h v.1.2 999 := by omega
      rw [if_neg hge, hmax, setLevel_dget_self hv]
  · rw [if_neg hc, if_neg hc]

lemma keys_maxStep {h : List (String × Int)} {v : (String × String) × Nat}
    (hv : v.1.2 ∈ h.map Prod.fst) :
    (maxStep h v).map Prod.fst = h.map Prod.fst := by
  unfold maxStep
  by_cases hc : v.2 > 2
  · rw [if_pos hc, keys_setLevel_of_mem hv]
  · rw [if_neg hc]

lemma apply_votes_eq_max_fold :
    ∀ (votes : List ((String × String) × Nat)) (h : List (String × Int)),
      (∀ p ∈ votes, p.1.2 ∈ h.map Prod.fst) →
      apply_votes h votes = votes.foldl maxStep h := by
  intro votes
  induction votes with
  | nil => intro h _; rfl
  | cons v vs ih =>
    intro h hkeys
    have hv : v.1.2 ∈ h.map Prod.fst := (hkeys v (List.mem_cons_self _ _))
    rw [apply_votes, List.foldl_cons, List.foldl_cons, ← apply_votes,
      applyStep_eq_maxStep hv]
    refine ih _ ?_
    intro p hp
    rw [keys_maxStep hv]
    exact hkeys p (List.mem_cons_of_mem _ hp)

/-- C3 (amended): hierarchy determination starts from the default base levels
(presentation=0, gateway=1, service=2, data=3, legacy=4, any other name 2)
restricted to the layers present, tallies one count per distinct (source,
target) pair of differing layers, and in a single forward pass over the pairs
in the order of their first appearance in the edge iteration (dict insertion
order — not descending count order) forces, for every pair whose count
exceeds 2, the target layer's level to at least one greater than the source
layer's current level, never decreasing a level. -/
theorem determine_hierarchy_eq_insertion_order_spec
    (inferred : List (String × String)) (edges : List (String × String)) :
    determine_hierarchy inferred edges = hierarchySpecAmended inferred edges := by
  unfold determine_hierarchy hierarchySpecAmended initial_hierarchy
  refine apply_votes_eq_max_fold _ _ ?_
  intro p hp
  have hmem :=
    (@tally_votes_pairs inferred edges [] (by simp) p hp).2
  rw [List.map_map]
  simpa using mem_dedupFirst hmem

/-! ## graph/builder.py

The repository stores the graph in a NetworkX `DiGraph`: node attributes in a
per-node dict, at most one directed edge per ordered node pair (`add_edge` on
an existing pair only replaces the edge's attributes), and `add_edge`
silently creates missing endpoint nodes with an empty attribute dict. -/

/-- Node attributes set by `build_from_analysis` (`None` for nodes NetworkX
auto-creates through `add_edge`). -/
structure NodeData where
  label : Option String
  file_path : Option String
  layer : Option String
  is_test : Option Bool
deriving DecidableEq, Repr

/-- A NetworkX `DiGraph`: attribute-carrying nodes and edges; the third edge
component is the `import_type` attribute. -/
structure DiGraph where
  nodes : List (String × NodeData)
  edges : List (String × String × String)
deriving DecidableEq, Repr

/-- Python `node_id in self.graph`. -/
def hasNode (g : DiGraph) (n : String) : Bool := (g.nodes.map Prod.fst).contains n

/-- NetworkX `add_node` with attributes: replace attributes in place when the
node exists, append otherwise. -/
def addNode (g : DiGraph) (n : String) (d : NodeData) : DiGraph :=
  if hasNode g n then
    { g with nodes := g.nodes.map (fun p => if p.1 = n then (p.1, d) else p) }
  else { g with nodes := g.nodes ++ [(n, d)] }

/-- Does this stored edge connect `u` to `v`. -/
def edgeMatches (e : String × String × String) (u v : String) : Bool :=
  e.1 == u && e.2.1 == v

/-- Node set after NetworkX `add_edge`: missing endpoints are auto-created
with an empty attribute dict. -/
def addEdgeNodes (g : DiGraph) (u v : String) : List (String × NodeData) :=
  let ns1 := if hasNode g u then g.nodes
             else g.nodes ++ [(u, ⟨none, none, none, none⟩)]
  if (ns1.map Prod.fst).contains v then ns1
  else ns1 ++ [(v, ⟨none, none, none, none⟩)]

/-- NetworkX `DiGraph.add_edge`: auto-create missing endpoints, then replace
the existing `u→v` edge's attributes or append a new edge (a `DiGraph` holds
at most one edge per ordered node pair). -/
def addEdge (g : DiGraph) (u v : String) (t : String) : DiGraph :=
  { nodes := addEdgeNodes g u v,
    edges :=
      if g.edges.any (fun e => edgeMatches e u v) then
        g.edges.map (fun e => if edgeMatches e u v then (u, v, t) else e)
      else g.edges ++ [(u, v, t)] }

/-- `Dependency` dataclass from analysis/analyzer.py (`impType` embeds the
Python field `import_type`). -/
structure Dependency where
  source : String
  target : String
  impType : String
  line_number : Nat
deriving DecidableEq, Repr

/-- The node-adding loop body of `build_from_analysis`. -/
def nodeStep (g : DiGraph) (m : String × ModuleInfo) : DiGraph :=
  addNode g m.1
    { label := some ((m.1.splitOn ".").getLastD m.1),
      file_path := some m.2.file_path,
      layer := m.2.layer,
      is_test := some m.2.is_test }

/-- The edge-adding loop body of `build_from_analysis`: a dependency is
materialized only when both endpoints exist as nodes, otherwise it is
silently skipped. -/
def edgeStep (g : DiGraph) (d : Dependency) : DiGraph :=
  if hasNode g d.source && hasNode g d.target then
    addEdge g d.source d.target d.impType
  else g

/-- `DependencyGraph.build_from_analysis`: add one node per module, then add
each dependency as an edge only when both endpoints exist as nodes. -/
def build_from_analysis (modules : List (String × ModuleInfo))
    (deps : List Dependency) : DiGraph :=
  deps.foldl edgeStep (modules.foldl nodeStep ⟨[], []⟩)

/-- `DependencyGraph.get_nodes`. -/
def get_nodes (g : DiGraph) : List String := g.nodes.map Prod.fst

/-- `DependencyGraph.get_edges`. -/
def get_edges (g : DiGraph) : List (String × String) :=
  g.edges.map (fun e => (e.1, e.2.1))

/-- `DependencyGraph.get_successors`. -/
def get_successors (g : DiGraph) (n : String) : List String :=
  (g.edges.filter (fun e => e.1 == n)).map (fun e => e.2.1)

/-- `DependencyGraph.get_predecessors`. -/
def get_predecessors (g : DiGraph) (n : String) : List String :=
  (g.edges.filter (fun e => e.2.1 == n)).map (fun e => e.1)

/-- `DependencyGraph.set_node_layer`: update the layer attribute in place when
the node exists.  (The parallel `module_metadata` update is not part of the
graph structure.) -/
def set_node_layer (g : DiGraph) (n : String) (l : String) : DiGraph :=
  if hasNode g n then
    { g with nodes := g.nodes.map (fun p =>
        if p.1 = n then (p.1, { p.2 with layer := some l }) else p) }
  else g

/-- The `total_edges` entry of `DependencyGraph.get_graph_stats`
(`self.graph.number_of_edges()`; the float-valued `density` and the remaining
entries are not claim-relevant). -/
def number_of_edges (g : DiGraph) : Nat := g.edges.length

/-- Two modules `a`, `b`, and two extracted dependencies `a→b` that differ
only in their `import_type`. -/
def exModsC8 : List (String × ModuleInfo) :=
  [("a", ⟨"a", "a.py", ["b", "b"], none, false⟩),
   ("b", ⟨"b", "b.py", [], none, false⟩)]

def exDepsC8 : List Dependency :=
  [⟨"a", "b", "import", 0⟩, ⟨"a", "b", "from_import", 0⟩]

/-- C8 counterexample: the graph is a NetworkX `DiGraph`, so two dependencies
with the same source and target collapse into a single edge (the second call
to `add_edge` merely overwrites the `import_type` attribute), and
`get_graph_stats` reports an edge count of 1, not 2. -/
theorem parallel_edges_collapse_counterexample :
    (build_from_analysis exModsC8 exDepsC8).edges = [("a", "b", "from_import")] ∧
    number_of_edges (build_from_analysis exModsC8 exDepsC8) = 1 := by
  refine ⟨by decide, by decide⟩

lemma edges_nodeStep (g : DiGraph) (m : String × ModuleInfo) :
    (nodeStep g m).edges = g.edges := by
  unfold nodeStep addNode
  split <;> rfl

lemma edges_nodeFold :
    ∀ (modules : List (String × ModuleInfo)) (g : DiGraph),
      (modules.foldl nodeStep g).edges = g.edges := by
  intro modules
  induction modules with
  | nil => intro g; rfl
  | cons m t ih => intro g; rw [List.foldl_cons, ih, edges_nodeStep]

/-- The ordered endpoint pairs of the stored edges. -/
def edgePairs (g : DiGraph) : List (String × String) :=
  g.edges.map (fun e => (e.1, e.2.1))

lemma edgePairs_addEdge_nodup {g : DiGraph} {u v t : String}
    (h : (edgePairs g).Nodup) : (edgePairs (addEdge g u v t)).Nodup := by
  unfold edgePairs addEdge at *
  by_cases hany : g.edges.any (fun e => edgeMatches e u v) = true
  · rw [if_pos hany]
    have : (g.edges.map (fun e => if edgeMatches e u v then (u, v, t) else e)).map
        (fun e => (e.1, e.2.1)) = g.edges.map (fun e => (e.1, e.2.1)) := by
      rw [List.map_map]
      refine List.map_congr_left ?_
      intro e _
      by_cases hm : edgeMatches e u v = true
      · have hm' := hm
        unfold edgeMatches at hm'
        simp only [Bool.and_eq_true, beq_iff_eq] at hm'
        simp [hm, hm'.1, hm'.2]
      · simp [hm]
    rw [this]
    exact h
  · rw [if_neg hany]
    rw [List.map_append]
    refine List.nodup_append.mpr ⟨h, by simp, ?_⟩
    intro p hp hq
    simp only [List.map_cons, List.map_nil, List.mem_singleton] at hq
    subst hq
    rcases List.mem_map.mp hp with ⟨e, he, hpr⟩
    have h1 : e.1 = u := congrArg Prod.fst hpr
    have h2 : e.2.1 = v := congrArg Prod.snd hpr
    have : edgeMatches e u v = true := by
      unfold edgeMatches
      rw [h1, h2]
      simp
    rw [Bool.not_eq_true, List.any_eq_false] at hany
    exact absurd this (by simpa using hany e he)

lemma edgePairs_edgeStep_nodup {g : DiGraph} {d : Dependency}
    (h : (edgePairs g).Nodup) : (edgePairs (edgeStep g d)).Nodup := by
  unfold edgeStep
  split
  · exact edgePairs_addEdge_nodup h
  · exact h

lemma edgePairs_fold_nodup :
    ∀ (deps : List Dependency) (g : DiGraph),
      (edgePairs g).Nodup → (edgePairs (deps.foldl edgeStep g)).Nodup := by
  intro deps
  induction deps with
  | nil => intro g h; exact h
  | cons d t ih =>
    intro g h
    rw [List.foldl_cons]
    exact ih _ (edgePairs_edgeStep_nodup h)

/-- C8 (amended): the graph never holds parallel edges — after construction
the (source, target) pairs of the stored edges are pairwise distinct, because
a repeated dependency only overwrites the existing edge's `import_type`
attribute — and on the two-parallel-dependency example the edge count
reported by `get_graph_stats` is therefore 1. -/
theorem graph_edges_have_distinct_pairs :
    (∀ modules deps, (edgePairs (build_from_analysis modules deps)).Nodup) ∧
    number_of_edges (build_from_analysis exModsC8 exDepsC8) = 1 := by
  constructor
  · intro modules deps
    unfold build_from_analysis
    refine edgePairs_fold_nodup _ _ ?_
    unfold edgePairs
    rw [edges_nodeFold]
    simp
  · decide

lemma hasNode_addEdge_of_cond {g : DiGraph} {u v t : String}
    (hu : hasNode g u = true) (hv : hasNode g v = true) :
    (addEdge g u v t).nodes = g.nodes := by
  unfold addEdge addEdgeNodes
  rw [if_pos hu]
  simp only
  unfold hasNode at hv
  rw [if_pos hv]

lemma endpoints_edgeStep {g : DiGraph} {d : Dependency}
    (h : ∀ e ∈ g.edges, hasNode g e.1 = true ∧ hasNode g e.2.1 = true) :
    ∀ e ∈ (edgeStep g d).edges,
      hasNode (edgeStep g d) e.1 = true ∧ hasNode (edgeStep g d) e.2.1 = true := by
  unfold edgeStep
  by_cases hc : (hasNode g d.source && hasNode g d.target) = true
  · rw [if_pos hc]
    have hu : hasNode g d.source = true := (Bool.and_eq_true _ _ |>.mp hc).1
    have hv : hasNode g d.target = true := (Bool.and_eq_true _ _ |>.mp hc).2
    have hnodes : (addEdge g d.source d.target d.impType).nodes = g.nodes :=
      hasNode_addEdge_of_cond hu hv
    have hhas : ∀ x, hasNode (addEdge g d.source d.target d.impType) x = hasNode g x := by
      intro x
      unfold hasNode
      rw [hnodes]
    intro e he
    rw [hhas, hhas]
    unfold addEdge at he
    simp only at he
    by_cases hany : g.edges.any (fun e => edgeMatches e d.source d.target) = true
    · rw [if_pos hany] at he
      rcases List.mem_map.mp he with ⟨e0, he0, hrepl⟩
      by_cases hm : edgeMatches e0 d.source d.target = true
      · rw [if_pos hm] at hrepl
        subst hrepl
        exact ⟨hu, hv⟩
      · rw [if_neg hm] at hrepl
        subst hrepl
        exact h e0 he0
    · rw [if_neg hany] at he
      rcases List.mem_append.mp he with he0 | he0
      · exact h e he0
      · rcases List.mem_singleton.mp he0 with rfl
        exact ⟨hu, hv⟩
  · rw [if_neg hc]
    exact h

lemma endpoints_fold :
    ∀ (deps : List Dependency) (g : DiGraph),
      (∀ e ∈ g.edges, hasNode g e.1 = true ∧ hasNode g e.2.1 = true) →
      ∀ e ∈ (deps.foldl edgeStep g).edges,
        hasNode (deps.foldl edgeStep g) e.1 = true ∧
        hasNode (deps.foldl edgeStep g) e.2.1 = true := by
  intro deps
  induction deps with
  | nil => intro g h; exact h
  | cons d t ih =>
    intro g h
    rw [List.foldl_cons]
    exact ih _ (endpoints_edgeStep h)

/-- C9: every edge of the built graph has both endpoints present as nodes —
a dependency with a missing endpoint is silently skipped by the guard in
`build_from_analysis` — and the only subsequent mutation, `set_node_layer`,
changes neither the edge list nor the node id set, so the invariant persists. -/
theorem build_graph_endpoints_closed :
    (∀ modules deps e, e ∈ (build_from_analysis modules deps).edges →
        hasNode (build_from_analysis modules deps) e.1 = true ∧
        hasNode (build_from_analysis modules deps) e.2.1 = true) ∧
    (∀ g n l, (set_node_layer g n l).edges = g.edges ∧
        get_nodes (set_node_layer g n l) = get_nodes g) := by
  constructor
  · intro modules deps e he
    unfold build_from_analysis at *
    refine endpoints_fold deps _ ?_ e he
    intro e0 he0
    rw [edges_nodeFold] at he0
    simp at he0
  · intro g n l
    unfold set_node_layer
    by_cases hn : hasNode g n = true
    · rw [if_pos hn]
      refine ⟨rfl, ?_⟩
      unfold get_nodes
      simp only
      rw [List.map_map]
      refine List.map_congr_left ?_
      intro p _
      by_cases hp : p.1 = n <;> simp [hp]
    · rw [if_neg hn]
      exact ⟨rfl, rfl⟩

/-- Modules and dependencies exercising both the kept-edge and the
dropped-edge case: `a→b` is materialized, `a→c` has no node `c`. -/
def exModsC9 : List (String × ModuleInfo) :=
  [("a", ⟨"a", "a.py", ["b", "c"], none, false⟩),
   ("b", ⟨"b", "b.py", [], none, false⟩)]

def exDepsC9 : List Dependency :=
  [⟨"a", "b", "import", 0⟩, ⟨"a", "c", "import", 0⟩]

/-- Closed instance of `build_graph_endpoints_closed` at a concrete graph. -/
theorem build_graph_endpoints_closed_witness :
    hasNode (build_from_analysis exModsC9 exDepsC9) "a" = true ∧
    hasNode (build_from_analysis exModsC9 exDepsC9) "b" = true ∧
    (set_node_layer (build_from_analysis exModsC9 exDepsC9) "a" "service").edges
      = (build_from_analysis exModsC9 exDepsC9).edges := by
  refine ⟨?_, ?_, ?_⟩
  · exact (build_graph_endpoints_closed.1 exModsC9 exDepsC9
      ("a", "b", "import") (by decide)).1
  · exact (build_graph_endpoints_closed.1 exModsC9 exDepsC9
      ("a", "b", "import") (by decide)).2
  · exact (build_graph_endpoints_closed.2
      (build_from_analysis exModsC9 exDepsC9) "a" "service").1

/-! ## graph/builder.py — find_cycles

`DependencyGraph.find_cycles` is `list(nx.simple_cycles(self.graph))` inside
a bare try/except (`simple_cycles` does not raise on a materialized digraph,
so the except arm returning `[]` is unreachable).  The NetworkX library call
is modelled by its documented contract, `cyclesOutputOK`: the returned
collection contains every elementary cycle of the graph exactly once, each
cycle given as a list of distinct graph nodes in traversal order; neither the
starting rotation of a cycle nor the order of the collection is specified.
The repository code performs no canonicalization, deduplication or sorting of
its own on that output. -/

/-- Is there a stored edge from `u` to `v`. -/
def hasEdgeB (g : DiGraph) (u v : String) : Bool :=
  g.edges.any (fun e => edgeMatches e u v)

/-- Are the entries of the list pairwise distinct. -/
def nodupB : List String → Bool
  | [] => true
  | x :: t => !(t.contains x) && nodupB t

/-- Do consecutive entries (and the last entry back to `first`) follow
edges of the graph. -/
def chainOk (g : DiGraph) (first : String) : List String → Bool
  | [] => true
  | [x] => hasEdgeB g x first
  | x :: y :: rest => hasEdgeB g x y && chainOk g first (y :: rest)

/-- Is `c` an elementary cycle of `g`: nonempty, no repeated node, every
step (including the closing step) an edge. -/
def isElemCycleB (g : DiGraph) (c : List String) : Bool :=
  match c with
  | [] => false
  | x :: t => nodupB (x :: t) && chainOk g x (x :: t)

/-- All ways to insert `x` into a list. -/
def insEverywhere (x : String) : List String → List (List String)
  | [] => [[x]]
  | y :: ys => (x :: y :: ys) :: (insEverywhere x ys).map (fun zs => y :: zs)

/-- All permutations of a list. -/
def permsL : List String → List (List String)
  | [] => [[]]
  | x :: xs => (permsL xs).flatMap (insEverywhere x)

/-- All subsets of a list (as subsequences). -/
def sublistsL : List String → List (List String)
  | [] => [[]]
  | x :: xs => sublistsL xs ++ (sublistsL xs).map (fun s => x :: s)

/-- All orderings of all subsets of the node set: every elementary cycle,
written as a node list, occurs in this finite enumeration. -/
def candidates (g : DiGraph) : List (List String) :=
  (sublistsL (get_nodes g)).flatMap permsL

/-- Rotation of a list by `k`. -/
def rotL (c : List String) (k : Nat) : List String := c.drop k ++ c.take k

/-- Are `c` and `d` rotations of one another. -/
def rotEq (c d : List String) : Bool :=
  c.length == d.length &&
    (List.range (max 1 c.length)).any (fun k => rotL c k == d)

/-- Documented contract of `nx.simple_cycles`, hence of `find_cycles`: every
element of the output is an elementary cycle given as a list of distinct
graph nodes, and every elementary cycle of the graph is represented by
exactly one element up to rotation. -/
def cyclesOutputOK (g : DiGraph) (out : List (List String)) : Bool :=
  out.all (fun c => (candidates g).contains c && isElemCycleB g c) &&
  (candidates g).all (fun c =>
    !(isElemCycleB g c) || (out.countP (fun d => rotEq d c) == 1))

/-- Three modules `a`, `b`, `c`. -/
def exModsC2 : List (String × ModuleInfo) :=
  [("a", ⟨"a", "a.py", ["b"], none, false⟩),
   ("b", ⟨"b", "b.py", ["c"], none, false⟩),
   ("c", ⟨"c", "c.py", ["a"], none, false⟩)]

/-- Edges a→b, b→c, c→a. -/
def exDepsC2 : List Dependency :=
  [⟨"a", "b", "import", 0⟩, ⟨"b", "c", "import", 0⟩, ⟨"c", "a", "import", 0⟩]

/-- The three-module cycle graph of the spec's example. -/
def exG3 : DiGraph := build_from_analysis exModsC2 exDepsC2

/-- C2 counterexample: `find_cycles` adds no canonicalization or sorting on
top of `nx.simple_cycles`, whose contract fixes neither the rotation nor the
order: the output `[[b, c, a]]` satisfies everything the code guarantees for
the graph a→b→c→a, yet it is not the canonical `[[a, b, c]]` the claim
asserts. -/
theorem find_cycles_rotation_counterexample :
    cyclesOutputOK exG3 [["b", "c", "a"]] = true ∧
    [["b", "c", "a"]] ≠ [["a", "b", "c"]] := by
  refine ⟨by decide, by decide⟩

/-- C2 (amended): `find_cycles` returns every elementary cycle exactly once
up to rotation, with no canonicalization of the starting node and no sorting;
on the graph a→b→c→a every output satisfying the library contract consists of
exactly one cycle, some rotation of `[a, b, c]`. -/
theorem find_cycles_exactly_one_cycle_up_to_rotation :
    ∀ out, cyclesOutputOK exG3 out = true →
      ∃ c, out = [c] ∧ rotEq c ["a", "b", "c"] = true := by
  intro out hok
  unfold cyclesOutputOK at hok
  rw [Bool.and_eq_true] at hok
  obtain ⟨h1, h2⟩ := hok
  have hmem : ["a", "b", "c"] ∈ candidates exG3 := by decide
  have hcand : isElemCycleB exG3 ["a", "b", "c"] = true := by decide
  have hcount : out.countP (fun d => rotEq d ["a", "b", "c"]) = 1 := by
    have hx := List.all_eq_true.mp h2 _ hmem
    simp only [hcand, Bool.not_true, Bool.false_or, beq_iff_eq] at hx
    exact hx
  have hall : ∀ c ∈ out, rotEq c ["a", "b", "c"] = true := by
    intro c hc
    have h1c := List.all_eq_true.mp h1 c hc
    rw [Bool.and_eq_true] at h1c
    obtain ⟨hmemc, hcyc⟩ := h1c
    have hfin : ∀ cd ∈ candidates exG3,
        isElemCycleB exG3 cd = true → rotEq cd ["a", "b", "c"] = true := by decide
    exact hfin c (List.elem_iff.mp hmemc) hcyc
  have hlen : out.countP (fun d => rotEq d ["a", "b", "c"]) = out.length :=
    List.countP_eq_length.mpr hall
  have hone : out.length = 1 := by omega
  rcases List.length_eq_one.mp hone with ⟨c, rfl⟩
  exact ⟨c, rfl, hall c (List.mem_singleton.mpr rfl)⟩

/-- Closed instance of the amended C2 theorem at the output `[[a, b, c]]`. -/
theorem find_cycles_exactly_one_cycle_witness :
    cyclesOutputOK exG3 [["a", "b", "c"]] = true ∧
    ∃ c, [["a", "b", "c"]] = [c] ∧ rotEq c ["a", "b", "c"] = true :=
  ⟨by decide, find_cycles_exactly_one_cycle_up_to_rotation [["a", "b", "c"]] (by decide)⟩

/-! ## analysis/analyzer.py — per-file error policy

`RepositoryAnalyzer.analyze` iterates the discovered source files and calls
`_analyze_file` on each; every extraction strategy wraps its file reading and
parsing in a catch-all `except` that prints one warning line interpolating
the file path and the exception message, and `_analyze_file` itself has a
second catch-all with the same shape.  The outcome of reading and parsing one
file is embedded as an `Except`: `ok` carries the extracted internal import
list, `error` the exception message.  (The Python-AST branch prefixes its
line with `Error analyzing` rather than `Warning: Failed to analyze`; both
carry the path and the message, which is what matters below.)  `print` output
is modelled as the `printed` list; `analyze` returns only
`(self.modules, self.dependencies)`. -/

instance : DecidableEq (Except String (List String)) := fun x y =>
  match x, y with
  | Except.error a, Except.error b =>
    if h : a = b then isTrue (congrArg Except.error h)
    else isFalse (fun he => h (Except.error.inj he))
  | Except.error _, Except.ok _ => isFalse (fun he => Except.noConfusion he)
  | Except.ok _, Except.error _ => isFalse (fun he => Except.noConfusion he)
  | Except.ok a, Except.ok b =>
    if h : a = b then isTrue (congrArg Except.ok h)
    else isFalse (fun he => h (Except.ok.inj he))

/-- One discovered source file: its path, the module id `_get_module_name`
derives from the path, and the outcome of reading and parsing it. -/
structure FileInput where
  path : String
  moduleName : String
  parse : Except String (List String)
deriving DecidableEq, Repr

/-- Last path component (Python `Path(...).name`). -/
def lastCompL : List Char → List Char → List Char
  | acc, [] => acc
  | acc, ch :: rest =>
    if ch = '/' || ch = '\\' then lastCompL [] rest else lastCompL (acc ++ [ch]) rest

/-- Suffix test on character lists. -/
def endsWithL (suf s : List Char) : Bool := startsWithL suf.reverse s.reverse

/-- `RepositoryAnalyzer._is_test_file`. -/
def isTestFile (path : String) : Bool :=
  let name := (lastCompL [] (strLower path).toList)
  let p := (strLower path).toList
  startsWithL "test_".toList name || endsWithL "_test.py".toList name ||
    hasSubL "/tests/".toList p || hasSubL "\\tests\\".toList p

/-- The warning line printed for a file whose analysis raised. -/
def warnLine (path msg : String) : String :=
  "Warning: Failed to analyze " ++ path ++ ": " ++ msg

/-- Python dict assignment `self.modules[name] = info`. -/
def setModule : List (String × ModuleInfo) → String → ModuleInfo →
    List (String × ModuleInfo)
  | [], k, v => [(k, v)]
  | (k0, v0) :: rest, k, v =>
    if k0 = k then (k0, v) :: rest else (k0, v0) :: setModule rest k v

/-- Analyzer state: the accumulating module dict and dependency list, plus
the lines printed so far. -/
structure AnalyzerState where
  modules : List (String × ModuleInfo)
  dependencies : List Dependency
  printed : List String
deriving DecidableEq, Repr

/-- `RepositoryAnalyzer._analyze_file`: on success store the module and one
dependency per extracted import; on any exception print one warning line and
leave modules and dependencies untouched. -/
def analyzeFile (st : AnalyzerState) (f : FileInput) : AnalyzerState :=
  match f.parse with
  | Except.error msg =>
    { st with printed := st.printed ++ [warnLine f.path msg] }
  | Except.ok imports =>
    { modules := setModule st.modules f.moduleName
        { name := f.moduleName, file_path := f.path, imports := imports,
          layer := none, is_test := isTestFile f.path },
      dependencies := st.dependencies ++ imports.map (fun imp =>
        { source := f.moduleName, target := imp,
          impType := "import", line_number := 0 }),
      printed := st.printed }

/-- `RepositoryAnalyzer.analyze`: fold over the discovered files. -/
def analyze (files : List FileInput) : AnalyzerState :=
  files.foldl analyzeFile { modules := [], dependencies := [], printed := [] }

/-- The pair `analyze` actually returns: `(self.modules, self.dependencies)`.
No warning collection is part of the return value. -/
def analyzeResult (files : List FileInput) :
    List (String × ModuleInfo) × List Dependency :=
  ((analyze files).modules, (analyze files).dependencies)

/-- A file that parses, importing `b`. -/
def goodFile : FileInput := ⟨"a.py", "a", Except.ok ["b"]⟩

/-- A file whose parse raises. -/
def badFile : FileInput := ⟨"broken.py", "broken", Except.error "invalid syntax"⟩

/-- C7 counterexample: the failing file is skipped and a warning line
carrying its path and message is printed, but `analyze` returns exactly the
same `(modules, dependencies)` value with or without the failing file — the
accumulated warnings are not returned alongside the results. -/
theorem analyzer_warnings_not_returned :
    analyzeResult [goodFile, badFile] = analyzeResult [goodFile] ∧
    (analyze [goodFile, badFile]).printed =
      ["Warning: Failed to analyze broken.py: invalid syntax"] := by
  refine ⟨by decide, by decide⟩

lemma printed_irrelevant :
    ∀ (files : List FileInput) (m : List (String × ModuleInfo))
      (d : List Dependency) (p : List String),
      (files.foldl analyzeFile ⟨m, d, p⟩).modules =
        (files.foldl analyzeFile ⟨m, d, []⟩).modules ∧
      (files.foldl analyzeFile ⟨m, d, p⟩).dependencies =
        (files.foldl analyzeFile ⟨m, d, []⟩).dependencies ∧
      (files.foldl analyzeFile ⟨m, d, p⟩).printed =
        p ++ (files.foldl analyzeFile ⟨m, d, []⟩).printed := by
  intro files
  induction files with
  | nil => intro m d p; exact ⟨rfl, rfl, by simp⟩
  | cons f t ih =>
    intro m d p
    rw [List.foldl_cons, List.foldl_cons]
    cases hf : f.parse with
    | error msg =>
      simp only [analyzeFile, hf]
      have h1 := ih m d (p ++ [warnLine f.path msg])
      have h2 := ih m d ([] ++ [warnLine f.path msg])
      refine ⟨h1.1.trans h2.1.symm, h1.2.1.trans h2.2.1.symm, ?_⟩
      rw [h1.2.2, h2.2.2]
      simp
    | ok imports =>
      simp only [analyzeFile, hf]
      exact ih _ _ p

/-- C7 (amended): any exception while reading or parsing a single file is
caught; one warning line carrying the file path and the message is printed,
the file contributes nothing to the module or dependency collections, and the
scan continues over the remaining files.  The warnings are printed to stdout
only — `analyze` returns just `(modules, dependencies)`. -/
theorem analyzer_error_containment :
    ∀ (xs ys : List FileInput) (f : FileInput) (msg : String),
      f.parse = Except.error msg →
      (analyze (xs ++ f :: ys)).modules = (analyze (xs ++ ys)).modules ∧
      (analyze (xs ++ f :: ys)).dependencies = (analyze (xs ++ ys)).dependencies ∧
      warnLine f.path msg ∈ (analyze (xs ++ f :: ys)).printed := by
  intro xs ys f msg hparse
  have hsplit : analyze (xs ++ f :: ys) =
      ys.foldl analyzeFile (analyzeFile (analyze xs) f) := by
    unfold analyze
    rw [List.foldl_append, List.foldl_cons]
  have hsplit2 : analyze (xs ++ ys) = ys.foldl analyzeFile (analyze xs) := by
    unfold analyze
    rw [List.foldl_append]
  have hstep : analyzeFile (analyze xs) f =
      ⟨(analyze xs).modules, (analyze xs).dependencies,
        (analyze xs).printed ++ [warnLine f.path msg]⟩ := by
    unfold analyzeFile
    rw [hparse]
  have h1 := printed_irrelevant ys (analyze xs).modules (analyze xs).dependencies
    ((analyze xs).printed ++ [warnLine f.path msg])
  have h2 := printed_irrelevant ys (analyze xs).modules (analyze xs).dependencies
    (analyze xs).printed
  rw [hsplit, hsplit2, hstep]
  refine ⟨h1.1.trans h2.1.symm, h1.2.1.trans h2.2.1.symm, ?_⟩
  rw [h1.2.2]
  exact List.mem_append_left _ (List.mem_append_right _ (List.mem_singleton.mpr rfl))

/-- Closed instance of the amended C7 theorem: `broken.py` fails, `a.py`
still contributes, and the warning line is printed. -/
theorem analyzer_error_containment_witness :
    (analyze [goodFile, badFile]).modules = (analyze [goodFile]).modules ∧
    (analyze [goodFile, badFile]).dependencies = (analyze [goodFile]).dependencies ∧
    warnLine badFile.path "invalid syntax" ∈ (analyze [goodFile, badFile]).printed :=
  analyzer_error_containment [goodFile] [] badFile "invalid syntax" rfl

/-! ## drift/detector.py — legacy access pass

A violation record is embedded by its deterministic, claim-relevant fields;
the `id` (`uuid.uuid4()`) and `timestamp` (`datetime.utcnow()`) fields and
the prose `title`/`description`/`rule_name`/`pattern_broken` strings are
omitted. -/

/-- The claim-relevant fields of one violation dict. -/
structure Violation where
  vtype : String
  severity : String
  source_module : String
  target_module : String
  dependency_path : List String
deriving DecidableEq, Repr

/-- `ViolationDetector._detect_legacy_access_violations`: for every module
mapped to layer `legacy`, every predecessor whose layer is neither `gateway`
nor `adapter` (including predecessors with no mapped layer) yields one
critical `legacy_access` violation. -/
def detect_legacy_access_violations (g : DiGraph)
    (module_layers : List (String × String)) : List Violation :=
  ((module_layers.filter (fun p => p.2 == "legacy")).map Prod.fst).flatMap
    (fun legacy_node =>
      (get_predecessors g legacy_node).filterMap (fun accessor =>
        if List.lookup accessor module_layers = some "gateway"
            ∨ List.lookup accessor module_layers = some "adapter" then none
        else some { vtype := "legacy_access", severity := "critical",
                    source_module := accessor, target_module := legacy_node,
                    dependency_path := [accessor, legacy_node] }))

lemma matchLayer_mem {fp mn l : String} :
    ∀ {ps : List (String × List String)},
      matchLayer fp mn ps = some l → l ∈ ps.map Prod.fst := by
  intro ps
  induction ps with
  | nil => intro h; simp [matchLayer] at h
  | cons p rest ih =>
    obtain ⟨layer, pats⟩ := p
    intro h
    by_cases hm : pats.any
        (fun pat => substrB pat fp || substrB pat mn) = true
    · rw [matchLayer, if_pos hm] at h
      rw [Option.some_inj] at h
      simp [h]
    · rw [matchLayer, if_neg hm] at h
      exact List.mem_cons_of_mem _ (ih h)

/-- C10: every layer the inference engine assigns lies in {presentation,
gateway, service, data, legacy} — never `adapter` — so in the legacy-access
pass the `adapter` exemption is never satisfied, and every predecessor of a
legacy-layer module whose assigned layer is not `gateway` produces a critical
`legacy_access` violation. -/
theorem inference_layers_never_adapter :
    (∀ (nodes : List String) (metadata : List (String × ModuleInfo))
        (n l : String), (n, l) ∈ assign_modules_to_layers nodes metadata →
        l ∈ ["presentation", "gateway", "service", "data", "legacy"]) ∧
    (∀ (g : DiGraph) (nodes : List String)
        (metadata : List (String × ModuleInfo)) (L acc l : String),
        List.lookup L (assign_modules_to_layers nodes metadata) = some "legacy" →
        acc ∈ get_predecessors g L →
        List.lookup acc (assign_modules_to_layers nodes metadata) = some l →
        l ≠ "gateway" →
        ({ vtype := "legacy_access", severity := "critical",
           source_module := acc, target_module := L,
           dependency_path := [acc, L] } : Violation)
          ∈ detect_legacy_access_violations g
              (assign_modules_to_layers nodes metadata)) := by
  have hassigned : ∀ (nodes : List String)
      (metadata : List (String × ModuleInfo)) (n l : String),
      (n, l) ∈ assign_modules_to_layers nodes metadata →
      l ∈ ["presentation", "gateway", "service", "data", "legacy"] := by
    intro nodes metadata n l h
    unfold assign_modules_to_layers at h
    rcases List.mem_filterMap.mp h with ⟨n0, _, hf⟩
    rcases hlk : List.lookup n0 metadata with _ | mi
    · rw [hlk] at hf; cases hf
    · rw [hlk] at hf
      rw [Option.some_inj] at hf
      have hl : l = assignLayer mi.file_path mi.name :=
        (congrArg Prod.snd hf).symm
      unfold assignLayer at hl
      rcases hm : matchLayer (strLower mi.file_path) (strLower mi.name)
          LAYER_PATTERNS with _ | layer
      · rw [hm] at hl
        simp only [Option.getD_none] at hl
        simp [hl]
      · rw [hm] at hl
        simp only [Option.getD_some] at hl
        have := matchLayer_mem hm
        rw [hl]
        simpa [LAYER_PATTERNS] using this
  refine ⟨hassigned, ?_⟩
  intro g nodes metadata L acc l hL hpred hacc hne
  have hmemL : (L, "legacy") ∈ assign_modules_to_layers nodes metadata :=
    mem_of_lookup hL
  have hLlegacy : L ∈ ((assign_modules_to_layers nodes metadata).filter
      (fun p => p.2 == "legacy")).map Prod.fst := by
    refine List.mem_map.mpr ⟨(L, "legacy"), ?_, rfl⟩
    exact List.mem_filter.mpr ⟨hmemL, by simp⟩
  have hladapter : l ≠ "adapter" := by
    have hmem := hassigned nodes metadata acc l (mem_of_lookup hacc)
    intro he
    rw [he] at hmem
    simp at hmem
  unfold detect_legacy_access_violations
  refine List.mem_flatMap.mpr ⟨L, hLlegacy, ?_⟩
  refine List.mem_filterMap.mpr ⟨acc, hpred, ?_⟩
  rw [if_neg, Option.some_inj]
  intro hcon
  rcases hcon with hcon | hcon <;> rw [hacc, Option.some_inj] at hcon
  · exact hne hcon
  · exact hladapter hcon

/-- A legacy module, a service accessor of it, and the graph of the single
dependency between them. -/
def exNodesC10 : List String := ["old.mainframe", "billing.logic"]

def exMetaC10 : List (String × ModuleInfo) :=
  [("old.mainframe", ⟨"old.mainframe", "legacy/mainframe.py", [], none, false⟩),
   ("billing.logic", ⟨"billing.logic", "billing/logic.py", [], none, false⟩)]

def exG10 : DiGraph :=
  build_from_analysis
    [("old.mainframe", ⟨"old.mainframe", "legacy/mainframe.py", [], none, false⟩),
     ("billing.logic", ⟨"billing.logic", "billing/logic.py", [], none, false⟩)]
    [⟨"billing.logic", "old.mainframe", "import", 0⟩]

/-- Closed instance of the C10 theorem: `billing.logic` (layer `service`)
accessing `old.mainframe` (layer `legacy`) yields the critical violation. -/
theorem inference_layers_never_adapter_witness :
    ({ vtype := "legacy_access", severity := "critical",
       source_module := "billing.logic", target_module := "old.mainframe",
       dependency_path := ["billing.logic", "old.mainframe"] } : Violation)
      ∈ detect_legacy_access_violations exG10
          (assign_modules_to_layers exNodesC10 exMetaC10) ∧
    "service" ∈ ["presentation", "gateway", "service", "data", "legacy"] := by
  constructor
  · exact inference_layers_never_adapter.2 exG10 exNodesC10 exMetaC10
      "old.mainframe" "billing.logic" "service"
      (by decide) (by decide) (by decide) (by decide)
  · exact inference_layers_never_adapter.1 exNodesC10 exMetaC10
      "billing.logic" "service" (by decide)

end Layered
